import Mathlib

/- Verification of the Haskell Code Explorer VSCode extension
   (src/hce.ts and src/extension.ts): a shallow embedding of the
   extension's data model, caches and resolution functions, together
   with theorems about definition resolution, reference aggregation,
   cache behaviour and key derivation.

   Conventions of the embedding:
   - TypeScript `Map` objects are embedded as association lists
     (`List (String × α)`) with `mapLookup` / `mapInsert`; `mapInsert`
     conses, and `mapLookup` returns the most recent binding, which is
     exactly `Map.set` / `Map.get` semantics.
   - Network I/O (axios `fetch`) is embedded as an oracle (`Network`):
     a family of functions from request parameters to `Option` results;
     `none` covers every failure mode of `fetch` (connection refused,
     404, other transport errors, empty body), all of which return
     `undefined` in the source.  Each stateful operation additionally
     returns the list of requests it issued, so "zero network calls" /
     "exactly one network call" are statable.
   - `Promise.all` over a list of requests is embedded as `List.map`
     over the oracle: the source merges results in initiation order
     (the order of the array handed to `Promise.all`), never in I/O
     completion order, and `List.map` is exactly that order.
   - VSCode document positions are 0-based naturals (the host API never
     produces negative coordinates); ranges constructed by the
     extension from 1-based index data use `Int` coordinates so that
     the `- 1` conversions are exact integer arithmetic as in
     JavaScript. -/

namespace HCE

/-- Mirrors `PackageId` from hce.ts: `{name, version}`. -/
structure PackageId where
  name : String
  version : String
  deriving DecidableEq

/-- Mirrors `LocatableEntity` from hce.ts: `"Typ" | "Val" | "Inst" | "Mod"`. -/
inductive LocatableEntity where
  | Typ
  | Val
  | Inst
  | Mod
  deriving DecidableEq

/-- String form of a `LocatableEntity`, as it appears in TypeScript
(where the type is a union of string literals used directly in URLs). -/
def LocatableEntity.toStr : LocatableEntity → String
  | .Typ => "Typ"
  | .Val => "Val"
  | .Inst => "Inst"
  | .Mod => "Mod"

/-- Mirrors the tagged union `LocationInfo` from hce.ts.  Line/column
fields of `ExactLocation` are the index's 1-based coordinates. -/
inductive LocationInfo where
  | ExactLocation (packageId : PackageId) (modulePath : String)
      (moduleName : String) (startLine endLine startColumn endColumn : Nat)
  | ApproximateLocation (packageId : PackageId) (moduleName : String)
      (entity : LocatableEntity) (name : String)
      (haddockAnchorId : Option String) (componentId : String)
  | UnknownLocation
  deriving DecidableEq

/-- Mirrors the TypeScript discriminant check
`locationInfo.tag === "ExactLocation"`. -/
def isExactLocation : LocationInfo → Bool
  | .ExactLocation .. => true
  | _ => false

/-- Mirrors `DefinitionSite` from hce.ts. -/
structure DefinitionSite where
  location : LocationInfo
  doc : Option String
  deriving DecidableEq

/-- Mirrors `NameSort` from hce.ts. -/
inductive NameSort where
  | External
  | Internal
  deriving DecidableEq

/-- Mirrors `TypeComponent` from hce.ts. -/
inductive TypeComponent where
  | Text (contents : String)
  | TyCon (internalId : String) (name : String)
  deriving DecidableEq

/-- Mirrors `Type` from hce.ts (named `HceType` because `Type` is a
Lean keyword). -/
structure HceType where
  components : List TypeComponent
  componentsExpanded : Option (List TypeComponent)
  deriving DecidableEq

/-- Mirrors `IntentifierInfo` from hce.ts (sic, the source's spelling). -/
structure IntentifierInfo where
  sort : NameSort
  occName : String
  demangledOccName : String
  locationInfo : LocationInfo
  idType : HceType
  externalId : Option String
  deriving DecidableEq

/-- Mirrors `IdentifierOccurrenceSort` from hce.ts. -/
inductive IdentifierOccurrenceSort where
  | ValueId
  | TypeId
  | ModuleId (contents : LocationInfo)
  deriving DecidableEq

/-- Mirrors `IdentifierOccurrence` from hce.ts. -/
structure IdentifierOccurrence where
  internalId : Option String
  isBinder : Bool
  idOccType : Option HceType
  sort : IdentifierOccurrenceSort
  deriving DecidableEq

/-- Mirrors `ModuleInfo` from hce.ts; the two `Map`s are association
lists. -/
structure ModuleInfo where
  identifiers : List (String × IntentifierInfo)
  occurrences : List (String × IdentifierOccurrence)
  deriving DecidableEq

/-- Mirrors `HaskellModuleResponse` from hce.ts (the raw JSON objects,
already in key/value-list form). -/
structure HaskellModuleResponse where
  identifiers : List (String × IntentifierInfo)
  occurrences : List (String × IdentifierOccurrence)
  deriving DecidableEq

/-- Mirrors `GlobalReferences` from hce.ts. -/
structure GlobalReferences where
  count : Nat
  packageId : String
  deriving DecidableEq

/-- Mirrors `IdentifierSrcSpan` from hce.ts (1-based, single line). -/
structure IdentifierSrcSpan where
  modulePath : String
  line : Nat
  startColumn : Nat
  endColumn : Nat
  deriving DecidableEq

/-- Mirrors `ReferenceWithSource` from hce.ts. -/
structure ReferenceWithSource where
  sourceCodeHtml : String
  idSrcSpan : IdentifierSrcSpan
  deriving DecidableEq

/-- Mirrors `SourceFile` from hce.ts. -/
structure SourceFile where
  name : String
  references : List ReferenceWithSource
  deriving DecidableEq

/-- Mirrors `ReferenceWithPackageId` from extension.ts. -/
structure ReferenceWithPackageId where
  packageIdString : String
  idSrcSpan : IdentifierSrcSpan
  deriving DecidableEq

/-- Mirrors `PackageInfo` from extension.ts. -/
structure PackageInfo where
  packageId : PackageId
  packageFolder : String
  deriving DecidableEq

/-- Word range returned by `document.getWordRangeAtPosition`
(0-based host coordinates, mirroring `vscode.Range` in its input
role; the host API guarantees non-negative positions). -/
structure WordRange where
  startLine : Nat
  startCharacter : Nat
  endLine : Nat
  endCharacter : Nat
  deriving DecidableEq

/-- Range constructed by the extension via `new vscode.Range(...)`
with 0-based coordinates obtained by subtracting 1 from the index's
1-based coordinates; `Int` so the subtraction is exact. -/
structure VsRange where
  startLine : Int
  startCharacter : Int
  endLine : Int
  endCharacter : Int
  deriving DecidableEq

/-- Mirrors `vscode.Location`: file uri (as a path string, from
`vscode.Uri.file`) plus a range. -/
structure VsLocation where
  uri : String
  range : VsRange
  deriving DecidableEq

/-- Mirrors `packageIdToString` from extension.ts. -/
def packageIdToString (packageId : PackageId) : String :=
  packageId.name ++ "-" ++ packageId.version

/-- One TypeScript regex-replacement step of `str.replace(/\./g, "%2E")`:
a `.` becomes the three characters `%2E`, any other character is kept. -/
def escapeDot (c : Char) : List Char :=
  if c = '.' then ['%', '2', 'E'] else [c]

/-- Mirrors `fixUrlDots` from extension.ts: `"."` and `".."` map to
reserved sentinels (they would collapse under URL path-segment
normalization), every other string has each `.` globally replaced by
`%2E`. -/
def fixUrlDots (str : String) : String :=
  if str = "." then "%20%2E"
  else if str = ".." then "%20%2E%2E"
  else String.mk (str.data.flatMap escapeDot)

/-- Mirrors `getDefinitionSiteUri` from extension.ts: only an
`ApproximateLocation` has a definition-site URI; the final name
segment is the module name for a `Mod` entity and the `name` field
otherwise, escaped with `fixUrlDots`. -/
def getDefinitionSiteUri : LocationInfo → Option String
  | .ApproximateLocation packageId moduleName entity name _ componentId =>
      let n := if entity = .Mod then moduleName else name
      some (packageIdToString packageId ++ "/" ++ componentId ++ "/" ++
        moduleName ++ "/" ++ entity.toStr ++ "/" ++ fixUrlDots n)
  | _ => none

/-- Mirrors `definitionSiteUrl` from extension.ts; when
`getDefinitionSiteUri` is undefined, JavaScript string concatenation
would produce the text `undefined`, mirrored by `Option.getD`. -/
def definitionSiteUrl (host : String) (locationInfo : LocationInfo) : String :=
  host ++ "/" ++ "api" ++ "/definitionSite/" ++
    (getDefinitionSiteUri locationInfo).getD "undefined"

/-- Association-list embedding of `Map.prototype.get`. -/
def mapLookup {α : Type} (k : String) : List (String × α) → Option α
  | [] => none
  | (k2, v) :: rest => if k2 = k then some v else mapLookup k rest

/-- Association-list embedding of `Map.prototype.set`: the new binding
shadows any previous one. -/
def mapInsert {α : Type} (k : String) (v : α) (m : List (String × α)) :
    List (String × α) :=
  (k, v) :: m

/-- Mirrors `wordRangeToOccurrenceId` from extension.ts: the 0-based
range coordinates each incremented by one (the index is 1-based) and
joined with `-`. -/
def wordRangeToOccurrenceId (wordRange : WordRange) : String :=
  Nat.repr (wordRange.startLine + 1) ++ "-" ++
    Nat.repr (wordRange.startCharacter + 1) ++ "-" ++
    Nat.repr (wordRange.endCharacter + 1)

/-- Network oracle: one function per remote endpoint the extension
consumes, keyed by the request parameters; `none` is any failed
fetch.  A fixed oracle also embeds that the extension never retries:
the same request always has the same outcome within one resolution. -/
structure Network where
  definitionSite : String → Option DefinitionSite
  globalReferences : String → Option (List GlobalReferences)
  references : String → String → Option (List SourceFile)
  haskellModule : String → String → Option HaskellModuleResponse

/-- Cache `globalState.definitionSites`. -/
abbrev DefSiteCache := List (String × DefinitionSite)

/-- Mirrors `packageIdToFolderPath` from extension.ts: linear search of
the package registry by canonical package-id string. -/
def packageIdToFolderPath (packages : List PackageInfo)
    (packageIdString : String) : Option String :=
  match packages.find? (fun p => packageIdToString p.packageId == packageIdString) with
  | none => none
  | some packageInfo => some packageInfo.packageFolder

/-- Mirrors `haskellLocationtoVscodeLocation` from extension.ts (sic,
the source's capitalization): `null` unless the location is exact and
its package is in the registry; otherwise the registry folder joined
with the module path, and every 1-based coordinate decremented. -/
def haskellLocationtoVscodeLocation (packages : List PackageInfo) :
    LocationInfo → Option VsLocation
  | .ExactLocation packageId modulePath _ startLine endLine startColumn endColumn =>
      match packageIdToFolderPath packages (packageIdToString packageId) with
      | none => none
      | some packageFolderPath =>
          some { uri := packageFolderPath ++ "/" ++ modulePath,
                 range := { startLine := (startLine : Int) - 1,
                            startCharacter := (startColumn : Int) - 1,
                            endLine := (endLine : Int) - 1,
                            endCharacter := (endColumn : Int) - 1 } }
  | _ => none

/-- Mirrors `haskellReferenceToVscodeLocation` from extension.ts. -/
def haskellReferenceToVscodeLocation (packages : List PackageInfo)
    (reference : ReferenceWithPackageId) : Option VsLocation :=
  match packageIdToFolderPath packages reference.packageIdString with
  | none => none
  | some packageFolderPath =>
      some { uri := packageFolderPath ++ "/" ++ reference.idSrcSpan.modulePath,
             range := { startLine := (reference.idSrcSpan.line : Int) - 1,
                        startCharacter := (reference.idSrcSpan.startColumn : Int) - 1,
                        endLine := (reference.idSrcSpan.line : Int) - 1,
                        endCharacter := (reference.idSrcSpan.endColumn : Int) - 1 } }

/-- Mirrors `fetchDefinitionSite` from extension.ts.  Returns the
fetched site (if any), the updated `definitionSites` cache, and the
list of definition-site requests issued (one URL per fetch).  When the
location has no definition-site URI the function returns early with no
fetch; on a successful fetch the site is cached under the URI. -/
def fetchDefinitionSite (net : Network) (host : String)
    (definitionSites : DefSiteCache) (locationInfo : LocationInfo) :
    Option DefinitionSite × DefSiteCache × List String :=
  match getDefinitionSiteUri locationInfo with
  | none => (none, definitionSites, [])
  | some definitionSiteUri =>
      let url := definitionSiteUrl host locationInfo
      match net.definitionSite url with
      | none => (none, definitionSites, [url])
      | some definitionSite =>
          (some definitionSite,
           mapInsert definitionSiteUri definitionSite definitionSites,
           [url])

/-- Mirrors `provideDefinitionFromLocationInfo` from extension.ts.
Returns the provided location (if any), the updated `definitionSites`
cache, and the list of definition-site requests issued.  An exact
location is translated directly; otherwise the definition-site cache
is consulted by URI, and only on a cache miss is one fetch issued; a
cached or freshly fetched site whose own location is not exact yields
no result and no further fetch. -/
def provideDefinitionFromLocationInfo (net : Network) (host : String)
    (packages : List PackageInfo) (definitionSites : DefSiteCache)
    (locationInfo : LocationInfo) :
    Option VsLocation × DefSiteCache × List String :=
  if isExactLocation locationInfo then
    (haskellLocationtoVscodeLocation packages locationInfo, definitionSites, [])
  else
    match getDefinitionSiteUri locationInfo with
    | none => (none, definitionSites, [])
    | some definitionSiteUri =>
        match mapLookup definitionSiteUri definitionSites with
        | some cachedDefinitionSite =>
            (if isExactLocation cachedDefinitionSite.location then
               haskellLocationtoVscodeLocation packages cachedDefinitionSite.location
             else none,
             definitionSites, [])
        | none =>
            match fetchDefinitionSite net host definitionSites locationInfo with
            | (none, definitionSites2, fetches) => (none, definitionSites2, fetches)
            | (some definitionSite, definitionSites2, fetches) =>
                (if isExactLocation definitionSite.location then
                   haskellLocationtoVscodeLocation packages definitionSite.location
                 else none,
                 definitionSites2, fetches)

/-- Mirrors `HceDefinitionProvider.provideDefinition` from
extension.ts.  `wordRange` is the result of
`document.getWordRangeAtPosition` (a host collaborator), `documentPath`
is `document.uri.path`.  Every guard failure (no word range,
multi-line range, module not cached, no occurrence, no internalId, no
identifier, binder occurrence) returns absent; the returned request
list records definition-site fetches (the module prefetch kicked off
on a module-cache miss targets a different endpoint and is not a
definition-site fetch). -/
def provideDefinition (net : Network) (host : String)
    (packages : List PackageInfo)
    (haskellModules : List (String × ModuleInfo))
    (definitionSites : DefSiteCache) (documentPath : String)
    (wordRange : Option WordRange) :
    Option VsLocation × DefSiteCache × List String :=
  match wordRange with
  | none => (none, definitionSites, [])
  | some wordRange =>
      if wordRange.startLine ≠ wordRange.endLine then
        (none, definitionSites, [])
      else
        match mapLookup documentPath haskellModules with
        | none => (none, definitionSites, [])
        | some moduleInfo =>
            match mapLookup (wordRangeToOccurrenceId wordRange) moduleInfo.occurrences with
            | none => (none, definitionSites, [])
            | some occurrence =>
                match occurrence.sort with
                | .ModuleId contents =>
                    provideDefinitionFromLocationInfo net host packages
                      definitionSites contents
                | _ =>
                    match occurrence.internalId with
                    | none => (none, definitionSites, [])
                    | some internalId =>
                        match mapLookup internalId moduleInfo.identifiers with
                        | none => (none, definitionSites, [])
                        | some identifier =>
                            if occurrence.isBinder then
                              (none, definitionSites, [])
                            else
                              provideDefinitionFromLocationInfo net host packages
                                definitionSites identifier.locationInfo

/-- Mirrors `fetchReferencesInPackage` from extension.ts: a failed
per-package query degrades to the empty list; each reference of each
source file is tagged with the package-id string of the queried
package, in server response order. -/
def fetchReferencesInPackage (net : Network)
    (packageIdString externalId : String) : List ReferenceWithPackageId :=
  match net.references packageIdString externalId with
  | none => []
  | some sourceFiles =>
      (sourceFiles.map (fun sourceFile =>
        sourceFile.references.map (fun x =>
          { packageIdString := packageIdString, idSrcSpan := x.idSrcSpan }))).flatten

/-- Mirrors `fetchAllReferences` from extension.ts.  Discovery failure
returns absent and leaves the references cache untouched; otherwise
the per-package queries (run under `Promise.all`, whose result array
preserves the discovery order) are concatenated in discovery order and
the merged list — including partial results when some packages
failed — is cached under the external id. -/
def fetchAllReferences (net : Network)
    (references : List (String × List ReferenceWithPackageId))
    (externalId : String) :
    Option (List ReferenceWithPackageId) ×
      List (String × List ReferenceWithPackageId) :=
  match net.globalReferences externalId with
  | none => (none, references)
  | some globalReferences =>
      let result := globalReferences.map (fun globalReference =>
        fetchReferencesInPackage net globalReference.packageId externalId)
      let merged := result.flatten
      (some merged, mapInsert externalId merged references)

/-- Mirrors `fetchHaskellModule` from extension.ts.  The request is
keyed by the owning package's canonical id string and the document's
path (the URL construction around them is transport detail); the
returned list records the single request issued.  On success the
parsed `ModuleInfo` is stored keyed by the document's absolute path;
on failure the cache is untouched, so nothing prevents a later
identical call from fetching again. -/
def fetchHaskellModule (net : Network)
    (haskellModules : List (String × ModuleInfo))
    (packageInfo : PackageInfo) (documentPath : String) :
    Option ModuleInfo × List (String × ModuleInfo) × List (String × String) :=
  let key := (packageIdToString packageInfo.packageId, documentPath)
  match net.haskellModule key.1 key.2 with
  | none => (none, haskellModules, [key])
  | some data =>
      let moduleInfo : ModuleInfo :=
        { identifiers := data.identifiers, occurrences := data.occurrences }
      (some moduleInfo, mapInsert documentPath moduleInfo haskellModules, [key])

/-- C5: for every `LocationInfo` whose variant is `UnknownLocation`,
definition resolution issues no network call and returns absent (and
leaves the definition-site cache unchanged). -/
theorem unknownLocation_no_fetch (net : Network) (host : String)
    (packages : List PackageInfo) (definitionSites : DefSiteCache) :
    provideDefinitionFromLocationInfo net host packages definitionSites
      .UnknownLocation = (none, definitionSites, []) := rfl

/-- C10: for an `ApproximateLocation` whose entity is `Mod`, the
definition-site cache key and request URL use the location's
`moduleName` as the escaped final name segment instead of its `name`
field; for every other entity the `name` field is used. -/
theorem definitionSiteUri_mod_entity (host : String) (pid : PackageId)
    (moduleName nm : String) (anchor : Option String)
    (componentId : String) (entity : LocatableEntity) :
    getDefinitionSiteUri
        (.ApproximateLocation pid moduleName .Mod nm anchor componentId)
      = some (packageIdToString pid ++ "/" ++ componentId ++ "/" ++
          moduleName ++ "/" ++ "Mod" ++ "/" ++ fixUrlDots moduleName)
    ∧ definitionSiteUrl host
        (.ApproximateLocation pid moduleName .Mod nm anchor componentId)
      = host ++ "/" ++ "api" ++ "/definitionSite/" ++
          (packageIdToString pid ++ "/" ++ componentId ++ "/" ++
            moduleName ++ "/" ++ "Mod" ++ "/" ++ fixUrlDots moduleName)
    ∧ (entity ≠ .Mod →
        getDefinitionSiteUri
            (.ApproximateLocation pid moduleName entity nm anchor componentId)
          = some (packageIdToString pid ++ "/" ++ componentId ++ "/" ++
              moduleName ++ "/" ++ entity.toStr ++ "/" ++ fixUrlDots nm)) := by
  refine ⟨rfl, rfl, fun h => ?_⟩
  simp [getDefinitionSiteUri, h]

/-- Witness for C10 at a concrete non-`Mod` entity: the `name` field
(escaped) is the final segment. -/
theorem definitionSiteUri_mod_entity_witness :
    getDefinitionSiteUri
        (.ApproximateLocation ⟨"pkg", "1.0"⟩ "Data.Text" .Val "pack" none "lib")
      = some "pkg-1.0/lib/Data.Text/Val/pack" := by
  have h := (definitionSiteUri_mod_entity "h" ⟨"pkg", "1.0"⟩ "Data.Text"
    "pack" none "lib" .Val).2.2 (by decide)
  exact h.trans (by decide)

/-- C8: translation of an `ExactLocation` (and of a reference source
span) returns absent exactly when the owning package's identity string
is not in the package registry; otherwise the file path is the
registry folder joined with the module path and each 1-based line and
column coordinate is decremented by one. -/
theorem toConcreteLocation_translation (packages : List PackageInfo)
    (pid : PackageId) (modulePath moduleName : String) (sl el sc ec : Nat)
    (ps : String) (span : IdentifierSrcSpan) :
    (packageIdToFolderPath packages (packageIdToString pid) = none →
       haskellLocationtoVscodeLocation packages
         (.ExactLocation pid modulePath moduleName sl el sc ec) = none)
    ∧ (∀ folder, packageIdToFolderPath packages (packageIdToString pid) = some folder →
       haskellLocationtoVscodeLocation packages
           (.ExactLocation pid modulePath moduleName sl el sc ec)
         = some { uri := folder ++ "/" ++ modulePath,
                  range := { startLine := (sl : Int) - 1,
                             startCharacter := (sc : Int) - 1,
                             endLine := (el : Int) - 1,
                             endCharacter := (ec : Int) - 1 } })
    ∧ (packageIdToFolderPath packages ps = none →
       haskellReferenceToVscodeLocation packages
         { packageIdString := ps, idSrcSpan := span } = none)
    ∧ (∀ folder, packageIdToFolderPath packages ps = some folder →
       haskellReferenceToVscodeLocation packages
           { packageIdString := ps, idSrcSpan := span }
         = some { uri := folder ++ "/" ++ span.modulePath,
                  range := { startLine := (span.line : Int) - 1,
                             startCharacter := (span.startColumn : Int) - 1,
                             endLine := (span.line : Int) - 1,
                             endCharacter := (span.endColumn : Int) - 1 } })
    ∧ (packageIdToFolderPath packages ps = none ↔
       ∀ p ∈ packages, packageIdToString p.packageId ≠ ps) := by
  refine ⟨fun h => by simp [haskellLocationtoVscodeLocation, h],
          fun folder h => by simp [haskellLocationtoVscodeLocation, h],
          fun h => by simp [haskellReferenceToVscodeLocation, h],
          fun folder h => by simp [haskellReferenceToVscodeLocation, h],
          ?_⟩
  constructor
  · intro h p hp hps
    cases hfind : packages.find?
        (fun p => packageIdToString p.packageId == ps) with
    | none =>
        have hnone := List.find?_eq_none.mp hfind p hp
        simp [hps] at hnone
    | some q => simp [packageIdToFolderPath, hfind] at h
  · intro h
    have hfind : packages.find?
        (fun p => packageIdToString p.packageId == ps) = none :=
      List.find?_eq_none.mpr (fun p hp => by simp [h p hp])
    simp [packageIdToFolderPath, hfind]

/-- Witness for C8: a registry hit translates with decremented
coordinates, a registry miss yields absent. -/
theorem toConcreteLocation_translation_witness :
    haskellLocationtoVscodeLocation [⟨⟨"pkg", "1.0"⟩, "/ws/pkg"⟩]
        (.ExactLocation ⟨"pkg", "1.0"⟩ "src/M.hs" "M" 3 4 5 6)
      = some ⟨"/ws/pkg/src/M.hs", ⟨2, 4, 3, 5⟩⟩
    ∧ haskellReferenceToVscodeLocation [⟨⟨"pkg", "1.0"⟩, "/ws/pkg"⟩]
        ⟨"other-2.0", ⟨"x", 1, 1, 2⟩⟩ = none := by
  constructor
  · have h := (toConcreteLocation_translation [⟨⟨"pkg", "1.0"⟩, "/ws/pkg"⟩]
      ⟨"pkg", "1.0"⟩ "src/M.hs" "M" 3 4 5 6 "other-2.0" ⟨"x", 1, 1, 2⟩).2.1
      "/ws/pkg" (by decide)
    exact h.trans (by decide)
  · exact (toConcreteLocation_translation [⟨⟨"pkg", "1.0"⟩, "/ws/pkg"⟩]
      ⟨"pkg", "1.0"⟩ "src/M.hs" "M" 3 4 5 6 "other-2.0" ⟨"x", 1, 1, 2⟩).2.2.1
      (by decide)

/-- C4: definition-site name escaping maps `"."` and `".."` to two
distinct reserved tokens, replaces every `.` by `%2E` in any other
name, never leaves a literal `.` in its output, and is deterministic
(so equal `ApproximateLocation` descriptors always produce equal cache
keys). -/
theorem fixUrlDots_spec (s : String) :
    fixUrlDots "." = "%20%2E"
    ∧ fixUrlDots ".." = "%20%2E%2E"
    ∧ fixUrlDots "." ≠ fixUrlDots ".."
    ∧ (s ≠ "." → s ≠ ".." →
        (fixUrlDots s).data =
          (s.data.map (fun c => if c = '.' then ['%', '2', 'E'] else [c])).flatten)
    ∧ '.' ∉ (fixUrlDots s).data
    ∧ (∀ l1 l2 : LocationInfo, l1 = l2 →
        getDefinitionSiteUri l1 = getDefinitionSiteUri l2) := by
  refine ⟨rfl, rfl, by decide, fun h1 h2 => ?_, ?_, fun l1 l2 h => by rw [h]⟩
  · simp only [fixUrlDots, if_neg h1, if_neg h2]
    rw [List.flatMap_def]
    rfl
  · by_cases h1 : s = "."
    · subst h1; decide
    · by_cases h2 : s = ".."
      · subst h2; decide
      · intro hmem
        simp only [fixUrlDots, if_neg h1, if_neg h2] at hmem
        rcases List.mem_flatMap.mp hmem with ⟨a, _, hc⟩
        by_cases ha : a = '.'
        · simp [escapeDot, ha] at hc
        · simp [escapeDot, ha] at hc
          exact ha (hc ▸ rfl)

/-- Witness for C4 on the name `a.b`: the inner dot is replaced by
`%2E`. -/
theorem fixUrlDots_spec_witness :
    (fixUrlDots "a.b").data =
      ("a.b".data.map (fun c => if c = '.' then ['%', '2', 'E'] else [c])).flatten := by
  exact (fixUrlDots_spec "a.b").2.2.2.1 (by decide) (by decide)

/- Auxiliary development for occurrence keys: decimal rendering of
   naturals (`Nat.repr`, the `toString` used by the source's
   `[...].join("-")`) is injective and never contains the separator
   `-`, hence joining three rendered coordinates with `-` is an
   injective key derivation. -/

/-- Accumulator independence of `Nat.toDigitsCore`: digits are pushed
in front of the accumulator. -/
theorem toDigitsCore_acc (b : Nat) :
    ∀ (fuel n : Nat) (ds : List Char),
      Nat.toDigitsCore b fuel n ds = Nat.toDigitsCore b fuel n [] ++ ds := by
  intro fuel
  induction fuel with
  | zero => intro n ds; simp [Nat.toDigitsCore]
  | succ fuel ih =>
      intro n ds
      simp only [Nat.toDigitsCore]
      by_cases h : n / b = 0
      · simp [h]
      · rw [if_neg h, if_neg h, ih (n / b) (Nat.digitChar (n % b) :: ds),
          ih (n / b) [Nat.digitChar (n % b)]]
        simp

/-- Decimal value of a digit string, most significant digit first. -/
def decVal (cs : List Char) : Nat :=
  cs.foldl (fun acc c => acc * 10 + (c.toNat - 48)) 0

theorem decVal_append_digit (cs : List Char) (c : Char) :
    decVal (cs ++ [c]) = decVal cs * 10 + (c.toNat - 48) := by
  simp [decVal, List.foldl_append]

theorem digitChar_val (k : Nat) (h : k < 10) :
    (Nat.digitChar k).toNat - 48 = k := by
  interval_cases k <;> decide

theorem digitChar_ne_dash (k : Nat) (h : k < 10) : Nat.digitChar k ≠ '-' := by
  interval_cases k <;> decide

/-- With enough fuel, `Nat.toDigitsCore` renders exactly the decimal
digits of its input. -/
theorem decVal_toDigitsCore :
    ∀ (fuel n : Nat), n < fuel →
      decVal (Nat.toDigitsCore 10 fuel n []) = n := by
  intro fuel
  induction fuel with
  | zero => intro n h; omega
  | succ fuel ih =>
      intro n h
      simp only [Nat.toDigitsCore]
      by_cases h10 : n / 10 = 0
      · rw [if_pos h10]
        have hn : n < 10 := by omega
        simp only [decVal, List.foldl_cons, List.foldl_nil, Nat.zero_mul,
          Nat.zero_add]
        rw [Nat.mod_eq_of_lt hn] at *
        exact digitChar_val n hn
      · rw [if_neg h10, toDigitsCore_acc 10 fuel (n / 10)
          [Nat.digitChar (n % 10)], decVal_append_digit,
          ih (n / 10) (by omega), digitChar_val (n % 10) (Nat.mod_lt _ (by omega))]
        omega

/-- Decimal rendering of naturals is injective (stated on the
character data of `Nat.repr`). -/
theorem repr_inj {m n : Nat} (h : (Nat.repr m).data = (Nat.repr n).data) :
    m = n := by
  have hd : Nat.toDigitsCore 10 (m + 1) m [] = Nat.toDigitsCore 10 (n + 1) n [] := h
  have h1 := decVal_toDigitsCore (m + 1) m (Nat.lt_succ_self m)
  have h2 := decVal_toDigitsCore (n + 1) n (Nat.lt_succ_self n)
  rw [← h1, ← h2, hd]

/-- Decimal rendering of naturals never contains the separator `-`. -/
theorem repr_ne_dash (n : Nat) : ∀ c ∈ (Nat.repr n).data, c ≠ '-' := by
  have main : ∀ (fuel k : Nat), ∀ c ∈ Nat.toDigitsCore 10 fuel k [], c ≠ '-' := by
    intro fuel
    induction fuel with
    | zero => intro k c hc; simp [Nat.toDigitsCore] at hc
    | succ fuel ih =>
        intro k c hc
        simp only [Nat.toDigitsCore] at hc
        by_cases h10 : k / 10 = 0
        · rw [if_pos h10] at hc
          simp only [List.mem_singleton] at hc
          subst hc
          exact digitChar_ne_dash _ (Nat.mod_lt _ (by omega))
        · rw [if_neg h10, toDigitsCore_acc] at hc
          rcases List.mem_append.mp hc with hmem | hmem
          · exact ih _ c hmem
          · simp only [List.mem_singleton] at hmem
            subst hmem
            exact digitChar_ne_dash _ (Nat.mod_lt _ (by omega))
  intro c hc
  exact main (n + 1) n c hc

/-- Unique decomposition of `xs ++ '-' :: ys` when `xs` is dash-free. -/
theorem dashFree_append_cancel :
    ∀ (xs1 : List Char) {ys1 xs2 ys2 : List Char},
      (∀ c ∈ xs1, c ≠ '-') → (∀ c ∈ xs2, c ≠ '-') →
      xs1 ++ '-' :: ys1 = xs2 ++ '-' :: ys2 → xs1 = xs2 ∧ ys1 = ys2 := by
  intro xs1
  induction xs1 with
  | nil =>
      intro ys1 xs2 ys2 _ h2 h
      cases xs2 with
      | nil => simpa using h
      | cons a t =>
          simp only [List.nil_append, List.cons_append, List.cons.injEq] at h
          exact absurd h.1.symm (h2 a (by simp))
  | cons a t ih =>
      intro ys1 xs2 ys2 h1 h2 h
      cases xs2 with
      | nil =>
          simp only [List.nil_append, List.cons_append, List.cons.injEq] at h
          exact absurd h.1 (h1 a (by simp))
      | cons b u =>
          simp only [List.cons_append, List.cons.injEq] at h
          obtain ⟨hab, hrest⟩ := h
          obtain ⟨ht, hy⟩ := ih (fun c hc => h1 c (by simp [hc]))
            (fun c hc => h2 c (by simp [hc])) hrest
          exact ⟨by rw [hab, ht], hy⟩

theorem string_data_append (s t : String) : (s ++ t).data = s.data ++ t.data := by
  cases s
  cases t
  rfl

/-- Joining three decimal renderings with `-` is injective in the
three coordinates. -/
theorem occurrenceKey_inj {a b c a2 b2 c2 : Nat}
    (h : Nat.repr a ++ "-" ++ Nat.repr b ++ "-" ++ Nat.repr c
       = Nat.repr a2 ++ "-" ++ Nat.repr b2 ++ "-" ++ Nat.repr c2) :
    a = a2 ∧ b = b2 ∧ c = c2 := by
  have hd := congrArg String.data h
  simp only [string_data_append, List.append_assoc] at hd
  have hd2 : (Nat.repr a).data ++ '-' ::
        ((Nat.repr b).data ++ '-' :: (Nat.repr c).data)
      = (Nat.repr a2).data ++ '-' ::
        ((Nat.repr b2).data ++ '-' :: (Nat.repr c2).data) := by
    simpa using hd
  obtain ⟨h1, hrest⟩ := dashFree_append_cancel _ (repr_ne_dash a)
    (repr_ne_dash a2) hd2
  obtain ⟨h2, h3⟩ := dashFree_append_cancel _ (repr_ne_dash b)
    (repr_ne_dash b2) hrest
  exact ⟨repr_inj h1, repr_inj h2, repr_inj h3⟩

/-- C6: occurrence-key derivation is injective on the 1-based
`(line, startColumn, endColumn)` coordinate triple and deterministic:
two word ranges give the same key exactly when their triples agree,
and the key is the 0-based range coordinates each incremented by one,
rendered in decimal and joined with `-`. -/
theorem occurrenceId_injective (r1 r2 : WordRange) :
    ((r1.startLine, r1.startCharacter, r1.endCharacter)
       = (r2.startLine, r2.startCharacter, r2.endCharacter)
     ↔ wordRangeToOccurrenceId r1 = wordRangeToOccurrenceId r2)
    ∧ wordRangeToOccurrenceId r1
      = Nat.repr (r1.startLine + 1) ++ "-" ++
          Nat.repr (r1.startCharacter + 1) ++ "-" ++
          Nat.repr (r1.endCharacter + 1) := by
  refine ⟨⟨fun h => ?_, fun h => ?_⟩, rfl⟩
  · simp only [Prod.mk.injEq] at h
    obtain ⟨h1, h2, h3⟩ := h
    unfold wordRangeToOccurrenceId
    rw [h1, h2, h3]
  · unfold wordRangeToOccurrenceId at h
    obtain ⟨h1, h2, h3⟩ := occurrenceKey_inj h
    simp only [Prod.mk.injEq]
    omega

/-- Witness for C6: two ranges differing only in the end line (which
the key ignores) have equal coordinate triples and hence equal keys. -/
theorem occurrenceId_injective_witness :
    wordRangeToOccurrenceId ⟨5, 2, 9, 4⟩ = wordRangeToOccurrenceId ⟨5, 2, 7, 4⟩ :=
  (occurrenceId_injective ⟨5, 2, 9, 4⟩ ⟨5, 2, 7, 4⟩).1.mp (by decide)

/-- Reduction of `provideDefinitionFromLocationInfo` on a location
that is not exact but has a definition-site URI (i.e. an approximate
location): consult the cache, else fetch once. -/
theorem provideDefinitionFromLocationInfo_approx (net : Network)
    (host : String) (packages : List PackageInfo)
    (definitionSites : DefSiteCache) (li : LocationInfo) (u : String)
    (hx : isExactLocation li = false)
    (hu : getDefinitionSiteUri li = some u) :
    provideDefinitionFromLocationInfo net host packages definitionSites li =
      (match mapLookup u definitionSites with
       | some cached =>
           ((if isExactLocation cached.location then
               haskellLocationtoVscodeLocation packages cached.location
             else none),
            definitionSites, [])
       | none =>
           (match net.definitionSite (definitionSiteUrl host li) with
            | none => (none, definitionSites, [definitionSiteUrl host li])
            | some site =>
                ((if isExactLocation site.location then
                    haskellLocationtoVscodeLocation packages site.location
                  else none),
                 mapInsert u site definitionSites,
                 [definitionSiteUrl host li]))) := by
  cases hm : mapLookup u definitionSites with
  | some cached =>
      simp [provideDefinitionFromLocationInfo, fetchDefinitionSite, hu, hx, hm]
  | none =>
      cases hn : net.definitionSite (definitionSiteUrl host li) with
      | none =>
          simp [provideDefinitionFromLocationInfo, fetchDefinitionSite,
            hu, hx, hm, hn]
      | some site =>
          simp [provideDefinitionFromLocationInfo, fetchDefinitionSite,
            hu, hx, hm, hn]

/-- C1: definition resolution performs at most one remote hop: an
exact location is translated with zero definition-site fetches; an
approximate location whose key is cached is resolved with zero
fetches; an approximate location whose key is not cached causes
exactly one fetch; and when the fetched site's own location is any
variant other than exact, the resolver returns absent without a
further fetch. -/
theorem definitionResolver_one_hop (net : Network) (host : String)
    (packages : List PackageInfo) (definitionSites : DefSiteCache)
    (locationInfo : LocationInfo) :
    (isExactLocation locationInfo = true →
       provideDefinitionFromLocationInfo net host packages definitionSites
           locationInfo
         = (haskellLocationtoVscodeLocation packages locationInfo,
            definitionSites, []))
    ∧ (∀ uri, getDefinitionSiteUri locationInfo = some uri →
        (mapLookup uri definitionSites).isSome = true →
        (provideDefinitionFromLocationInfo net host packages definitionSites
          locationInfo).2.2 = [])
    ∧ (∀ uri, getDefinitionSiteUri locationInfo = some uri →
        mapLookup uri definitionSites = none →
        (provideDefinitionFromLocationInfo net host packages definitionSites
          locationInfo).2.2 = [definitionSiteUrl host locationInfo])
    ∧ (∀ uri site, getDefinitionSiteUri locationInfo = some uri →
        mapLookup uri definitionSites = none →
        net.definitionSite (definitionSiteUrl host locationInfo) = some site →
        isExactLocation site.location = false →
        (provideDefinitionFromLocationInfo net host packages definitionSites
          locationInfo).1 = none)
    ∧ (provideDefinitionFromLocationInfo net host packages definitionSites
        locationInfo).2.2.length ≤ 1 := by
  cases locationInfo with
  | ExactLocation pid mp mn sl el sc ec =>
      refine ⟨fun _ => rfl, ?_, ?_, ?_,
        by simp [provideDefinitionFromLocationInfo, isExactLocation]⟩
      · intro uri h; simp [getDefinitionSiteUri] at h
      · intro uri h; simp [getDefinitionSiteUri] at h
      · intro uri site h; simp [getDefinitionSiteUri] at h
  | UnknownLocation =>
      refine ⟨fun h => by simp [isExactLocation] at h, ?_, ?_, ?_,
        by simp [provideDefinitionFromLocationInfo, isExactLocation,
          getDefinitionSiteUri]⟩
      · intro uri h; simp [getDefinitionSiteUri] at h
      · intro uri h; simp [getDefinitionSiteUri] at h
      · intro uri site h; simp [getDefinitionSiteUri] at h
  | ApproximateLocation pid mn e nm anch cid =>
      have hx : isExactLocation (.ApproximateLocation pid mn e nm anch cid)
          = false := rfl
      have hu : getDefinitionSiteUri (.ApproximateLocation pid mn e nm anch cid)
          = some (packageIdToString pid ++ "/" ++ cid ++ "/" ++ mn ++ "/" ++
              LocatableEntity.toStr e ++ "/" ++
              fixUrlDots (if e = .Mod then mn else nm)) := rfl
      rw [provideDefinitionFromLocationInfo_approx net host packages
        definitionSites _ _ hx hu]
      cases hm : mapLookup (packageIdToString pid ++ "/" ++ cid ++ "/" ++ mn ++
          "/" ++ LocatableEntity.toStr e ++ "/" ++
          fixUrlDots (if e = .Mod then mn else nm)) definitionSites with
      | some cached =>
          refine ⟨fun hcontra => by simp [isExactLocation] at hcontra,
            fun uri h hsome => rfl, ?_, ?_, by simp⟩
          · intro uri h hnone
            rw [hu] at h
            injection h with h
            rw [← h, hm] at hnone
            simp at hnone
          · intro uri site h hnone
            rw [hu] at h
            injection h with h
            rw [← h, hm] at hnone
            simp at hnone
      | none =>
          cases hn : net.definitionSite (definitionSiteUrl host
              (.ApproximateLocation pid mn e nm anch cid)) with
          | none =>
              refine ⟨fun hcontra => by simp [isExactLocation] at hcontra,
                ?_, fun uri h hnone => rfl, ?_, by simp⟩
              · intro uri h hsome
                rw [hu] at h
                injection h with h
                rw [← h, hm] at hsome
                simp at hsome
              · intro uri site h hnone hfetch
                simp at hfetch
          | some site =>
              refine ⟨fun hcontra => by simp [isExactLocation] at hcontra,
                ?_, fun uri h hnone => rfl, ?_, by simp⟩
              · intro uri h hsome
                rw [hu] at h
                injection h with h
                rw [← h, hm] at hsome
                simp at hsome
              · intro uri site2 h hnone hfetch hnotexact
                injection hfetch with hfetch
                subst hfetch
                simp [hnotexact]

/-- Network oracle used by witnesses: every definition-site fetch
answers with an (unresolvable) `UnknownLocation` site, every other
endpoint fails. -/
def netW1 : Network :=
  { definitionSite := fun _ => some ⟨.UnknownLocation, none⟩,
    globalReferences := fun _ => none,
    references := fun _ _ => none,
    haskellModule := fun _ _ => none }

/-- Concrete approximate location used by witnesses. -/
def liW1 : LocationInfo :=
  .ApproximateLocation ⟨"pkg", "1.0"⟩ "M" .Val "foo" none "c1"

/-- Witness for C1: on a cold cache, resolving a concrete approximate
location against a server that answers with a second-level
non-exact location yields absent after exactly one fetch; on a warm
cache no fetch is issued. -/
theorem definitionResolver_one_hop_witness :
    (provideDefinitionFromLocationInfo netW1 "h" [] [] liW1).1 = none
    ∧ (provideDefinitionFromLocationInfo netW1 "h" [] [] liW1).2.2.length = 1
    ∧ (provideDefinitionFromLocationInfo netW1 "h" []
        [("pkg-1.0/c1/M/Val/foo", ⟨.UnknownLocation, none⟩)] liW1).2.2 = [] := by
  refine ⟨(definitionResolver_one_hop netW1 "h" [] [] liW1).2.2.2.1
      "pkg-1.0/c1/M/Val/foo" ⟨.UnknownLocation, none⟩ (by decide) rfl rfl rfl,
    ?_,
    (definitionResolver_one_hop netW1 "h" []
        [("pkg-1.0/c1/M/Val/foo", ⟨.UnknownLocation, none⟩)] liW1).2.1
      "pkg-1.0/c1/M/Val/foo" (by decide) (by decide)⟩
  have h := (definitionResolver_one_hop netW1 "h" [] [] liW1).2.2.1
    "pkg-1.0/c1/M/Val/foo" (by decide) rfl
  rw [h]
  rfl

/-- C3: in reference aggregation, a failed per-package fan-out query
contributes the empty sequence while the successful package's
references survive in order, and the partial merge is cached under the
external id; a failed discovery call returns absent and writes no
cache entry. -/
theorem referenceAggregator_partial_failure (net : Network)
    (cache : List (String × List ReferenceWithPackageId))
    (externalId : String) (g1 g2 : GlobalReferences) :
    (net.globalReferences externalId = some [g1, g2] →
      net.references g2.packageId externalId = none →
      (fetchAllReferences net cache externalId).1
          = some (fetchReferencesInPackage net g1.packageId externalId)
        ∧ mapLookup externalId (fetchAllReferences net cache externalId).2
          = some (fetchReferencesInPackage net g1.packageId externalId))
    ∧ (net.globalReferences externalId = none →
        fetchAllReferences net cache externalId = (none, cache)) := by
  constructor
  · intro hg hf
    have hp2 : fetchReferencesInPackage net g2.packageId externalId = [] := by
      simp [fetchReferencesInPackage, hf]
    constructor
    · simp [fetchAllReferences, hg, hp2]
    · simp [fetchAllReferences, hg, hp2, mapInsert, mapLookup]
  · intro hg
    simp [fetchAllReferences, hg]

/-- Network oracle used by reference witnesses: discovery of `ext`
reports packages `p1` and `p2`; only `p1`'s per-package query
succeeds. -/
def netW3 : Network :=
  { definitionSite := fun _ => none,
    globalReferences := fun e =>
      if e = "ext" then some [⟨1, "p1"⟩, ⟨1, "p2"⟩] else none,
    references := fun p _ =>
      if p = "p1" then some [⟨"file", [⟨"<html>", ⟨"A.hs", 3, 1, 4⟩⟩]⟩]
      else none,
    haskellModule := fun _ _ => none }

/-- Witness for C3: with discovery `[p1, p2]` and `p2` failing, both
the returned merge and the cached entry are exactly `p1`'s
references. -/
theorem referenceAggregator_partial_failure_witness :
    (fetchAllReferences netW3 [] "ext").1
        = some [{ packageIdString := "p1", idSrcSpan := ⟨"A.hs", 3, 1, 4⟩ }]
    ∧ mapLookup "ext" (fetchAllReferences netW3 [] "ext").2
        = some [{ packageIdString := "p1", idSrcSpan := ⟨"A.hs", 3, 1, 4⟩ }] := by
  have h := (referenceAggregator_partial_failure netW3 [] "ext"
    ⟨1, "p1"⟩ ⟨1, "p2"⟩).1 rfl rfl
  exact ⟨h.1.trans (by rfl), h.2.trans (by rfl)⟩

/-- C7: every merged reference is tagged with the package identity of
the package whose query produced it; a package's contribution lists
its source files' references in server response order; and the merged
sequence is the concatenation of the per-package contributions in
discovery order. -/
theorem references_order_and_tagging (net : Network) (p externalId : String)
    (sfs : List SourceFile) (gs : List GlobalReferences)
    (cache : List (String × List ReferenceWithPackageId)) :
    (∀ r ∈ fetchReferencesInPackage net p externalId, r.packageIdString = p)
    ∧ (net.references p externalId = some sfs →
        fetchReferencesInPackage net p externalId
          = (sfs.map (fun sourceFile => sourceFile.references.map (fun x =>
              ({ packageIdString := p, idSrcSpan := x.idSrcSpan } :
                ReferenceWithPackageId)))).flatten)
    ∧ (net.globalReferences externalId = some gs →
        (fetchAllReferences net cache externalId).1
          = some ((gs.map (fun g =>
              fetchReferencesInPackage net g.packageId externalId)).flatten)) := by
  refine ⟨?_, fun h => by simp [fetchReferencesInPackage, h],
    fun h => by simp [fetchAllReferences, h]⟩
  intro r hr
  unfold fetchReferencesInPackage at hr
  cases hval : net.references p externalId with
  | none => rw [hval] at hr; simp at hr
  | some sfs2 =>
      rw [hval] at hr
      simp only [List.mem_flatten, List.mem_map] at hr
      obtain ⟨l, ⟨sf, hsf, hl⟩, hrl⟩ := hr
      rw [← hl] at hrl
      simp only [List.mem_map] at hrl
      obtain ⟨x, hx, hxr⟩ := hrl
      rw [← hxr]

/-- Witness for C7: the single successful package's contribution is
its references tagged with that package id, in order. -/
theorem references_order_and_tagging_witness :
    fetchReferencesInPackage netW3 "p1" "ext"
      = [{ packageIdString := "p1", idSrcSpan := ⟨"A.hs", 3, 1, 4⟩ }] := by
  have h := (references_order_and_tagging netW3 "p1" "ext"
    [⟨"file", [⟨"<html>", ⟨"A.hs", 3, 1, 4⟩⟩]⟩] [] []).2.1 rfl
  exact h.trans (by rfl)

/-- C9: a successful module fetch stores the parsed `ModuleInfo` in
the module cache keyed by the document's path and returns it; a failed
fetch returns absent and leaves the cache unchanged (failures are not
cached); and every call issues exactly one fetch, so after a failure a
later identical call fetches again. -/
theorem moduleCache_fetch (net : Network)
    (haskellModules : List (String × ModuleInfo))
    (packageInfo : PackageInfo) (documentPath : String) :
    (∀ data, net.haskellModule (packageIdToString packageInfo.packageId)
        documentPath = some data →
      (fetchHaskellModule net haskellModules packageInfo documentPath).1
          = some ⟨data.identifiers, data.occurrences⟩
        ∧ mapLookup documentPath
            (fetchHaskellModule net haskellModules packageInfo documentPath).2.1
          = some ⟨data.identifiers, data.occurrences⟩)
    ∧ (net.haskellModule (packageIdToString packageInfo.packageId)
        documentPath = none →
      (fetchHaskellModule net haskellModules packageInfo documentPath).1 = none
        ∧ (fetchHaskellModule net haskellModules packageInfo documentPath).2.1
          = haskellModules)
    ∧ (fetchHaskellModule net haskellModules packageInfo documentPath).2.2.length
        = 1 := by
  refine ⟨?_, ?_, ?_⟩
  · intro data h
    constructor
    · simp [fetchHaskellModule, h]
    · simp [fetchHaskellModule, h, mapInsert, mapLookup]
  · intro h
    constructor <;> simp [fetchHaskellModule, h]
  · cases h : net.haskellModule (packageIdToString packageInfo.packageId)
        documentPath <;>
      simp [fetchHaskellModule, h]

/-- Network oracle used by the module-cache witness: every module
fetch succeeds with an empty module. -/
def netW9 : Network :=
  { definitionSite := fun _ => none,
    globalReferences := fun _ => none,
    references := fun _ _ => none,
    haskellModule := fun _ _ => some ⟨[], []⟩ }

/-- Witness for C9: a successful fetch returns and caches the module;
a failed fetch (here: every fetch of `netW3` fails) leaves the cache
unchanged. -/
theorem moduleCache_fetch_witness :
    (fetchHaskellModule netW9 [] ⟨⟨"pkg", "1.0"⟩, "/ws/pkg"⟩ "/ws/pkg/A.hs").1
        = some ⟨[], []⟩
    ∧ (fetchHaskellModule netW3 [] ⟨⟨"pkg", "1.0"⟩, "/ws/pkg"⟩ "/ws/pkg/A.hs").2.1
        = [] :=
  ⟨((moduleCache_fetch netW9 [] ⟨⟨"pkg", "1.0"⟩, "/ws/pkg"⟩ "/ws/pkg/A.hs").1
      ⟨[], []⟩ rfl).1,
   ((moduleCache_fetch netW3 [] ⟨⟨"pkg", "1.0"⟩, "/ws/pkg"⟩ "/ws/pkg/A.hs").2.1
      rfl).2⟩

/-- Concrete package id used by the binder-exclusion theorems. -/
def pidW : PackageId := ⟨"pkg", "1.0"⟩

/-- Concrete package registry binding `pkg-1.0` to `/ws/pkg`. -/
def packagesW : List PackageInfo := [⟨pidW, "/ws/pkg"⟩]

/-- Concrete exact location inside `pkg-1.0`. -/
def locW : LocationInfo := .ExactLocation pidW "src/M.hs" "M" 3 3 1 2

/-- Binder occurrence whose sort is `ModuleId`: the source's
`provideDefinition` returns from the `ModuleId` branch before ever
reaching the `isBinder` check. -/
def occW : IdentifierOccurrence := ⟨none, true, none, .ModuleId locW⟩

/-- Module info containing only the `ModuleId` binder occurrence at
key `3-1-2`. -/
def miW : ModuleInfo := ⟨[], [("3-1-2", occW)]⟩

/-- The word range `(line 2, columns 0-1)` (0-based), whose occurrence
key is `3-1-2`. -/
def wrW : WordRange := ⟨2, 0, 2, 1⟩

/-- C2 counterexample: an occurrence with `isBinder = true` looked up
by the go-to-definition entry point is returned as a definition
target when its sort is `ModuleId` — the binder check is only reached
on the identifier path, so the claim "returns absent regardless of
the occurrence's sort" is false on the code. -/
theorem binder_exclusion_counterexample :
    occW.isBinder = true
    ∧ (provideDefinition netW1 "h" packagesW [("/ws/doc.hs", miW)] []
        "/ws/doc.hs" (some wrW)).1
      = some ⟨"/ws/pkg/src/M.hs", ⟨2, 0, 2, 1⟩⟩ :=
  ⟨rfl, rfl⟩

/-- C2 amended: for every occurrence with `isBinder = true` looked up
by the go-to-definition entry point whose sort is not `ModuleId`, the
provider returns absent, even if the occurrence otherwise resolves to
a valid identifier and location; an occurrence of sort `ModuleId`
bypasses the binder check. -/
theorem binder_exclusion_amended (net : Network) (host : String)
    (packages : List PackageInfo)
    (haskellModules : List (String × ModuleInfo))
    (definitionSites : DefSiteCache) (documentPath : String)
    (wr : WordRange) (mi : ModuleInfo) (occ : IdentifierOccurrence)
    (hm : mapLookup documentPath haskellModules = some mi)
    (ho : mapLookup (wordRangeToOccurrenceId wr) mi.occurrences = some occ)
    (hb : occ.isBinder = true)
    (hs : ∀ loc, occ.sort ≠ .ModuleId loc) :
    (provideDefinition net host packages haskellModules definitionSites
      documentPath (some wr)).1 = none := by
  by_cases hl : wr.startLine = wr.endLine
  · cases hsort : occ.sort with
    | ModuleId loc => exact absurd hsort (hs loc)
    | ValueId =>
        cases hid : occ.internalId with
        | none => simp [provideDefinition, hl, hm, ho, hid, hsort]
        | some iid =>
            cases hident : mapLookup iid mi.identifiers with
            | none => simp [provideDefinition, hl, hm, ho, hid, hident, hsort]
            | some ident =>
                simp [provideDefinition, hl, hm, ho, hid, hident, hsort, hb]
    | TypeId =>
        cases hid : occ.internalId with
        | none => simp [provideDefinition, hl, hm, ho, hid, hsort]
        | some iid =>
            cases hident : mapLookup iid mi.identifiers with
            | none => simp [provideDefinition, hl, hm, ho, hid, hident, hsort]
            | some ident =>
                simp [provideDefinition, hl, hm, ho, hid, hident, hsort, hb]
  · simp [provideDefinition, hl]

/-- Binder occurrence of sort `ValueId` that otherwise resolves to a
valid identifier (`i1`) with an exact, registry-known location. -/
def occW2 : IdentifierOccurrence := ⟨some "i1", true, none, .ValueId⟩

/-- Identifier record for `i1`, resolvable to `locW`. -/
def identW : IntentifierInfo := ⟨.External, "foo", "foo", locW, ⟨[], none⟩, some "ext"⟩

/-- Module info with the `ValueId` binder occurrence and its
identifier. -/
def miW2 : ModuleInfo := ⟨[("i1", identW)], [("3-1-2", occW2)]⟩

/-- Witness for the amended C2: the `ValueId` binder occurrence is
rejected even though its identifier resolves to a registry-known exact
location. -/
theorem binder_exclusion_amended_witness :
    (provideDefinition netW1 "h" packagesW [("/ws/doc.hs", miW2)] []
      "/ws/doc.hs" (some wrW)).1 = none :=
  binder_exclusion_amended netW1 "h" packagesW [("/ws/doc.hs", miW2)] []
    "/ws/doc.hs" wrW miW2 occW2 rfl rfl rfl
    (fun loc h => by simp [occW2] at h)

end HCE
